import Mathlib

/-!
Shallow embedding of the CsPyInterop python library (`pylib`):
`pylib/linalg/decomposition.py` and `pylib/ml/pytorch_sample.py`.

The adapters wrap library calls (`np.linalg.svd`, torch training): the
library outputs (the singular-value array `S`, the economy factors
`U, S, Vt`, the torch model operations) enter the embedding as explicit
parameters, and the adapters' own computations — tolerance defaulting,
counting, the truncation slice, the reconstruction product, the model-handle
state machine, the flat-vector promotion — are translated line by line from
the source.  Real arithmetic is idealised over `ℚ` (exact rationals in place
of IEEE doubles).
-/

namespace Pylib

/-! ### decomposition.py -/

/-- `np.finfo(float).eps` for IEEE double precision: `2 ** (-52)`. -/
def machineEps : ℚ := 1 / 2 ^ 52

/-- `S.max()` over the (non-negative) singular values.  `np.max` of a
non-empty array of non-negative numbers coincides with `foldr max 0`;
the library guarantees `S` is non-negative, and theorems carry that
hypothesis where it matters. -/
def listMax (S : List ℚ) : ℚ := S.foldr max 0

/-- `matrix_rank(matrix, tolerance=None)` from decomposition.py, lines
146–158, embedded over the singular values `S = np.linalg.svd(A)[1]` and the
shape `(rows, cols)` of `A`:

    if tolerance is None:
        tolerance = S.max() * max(A.shape) * np.finfo(float).eps
    rank = np.sum(S > tolerance)

`np.sum` of the elementwise strict comparison is the count of entries
strictly above the threshold. -/
def matrix_rank (rows cols : ℕ) (S : List ℚ) (tolerance : Option ℚ) : ℕ :=
  let tol := tolerance.getD (listMax S * ((max rows cols : ℕ) : ℚ) * machineEps)
  S.countP (fun s => decide (tol < s))

/-- The spec's wording of the default-tolerance rank: the count of singular
values strictly exceeding largest-singular-value × max(rows, cols) × machine
epsilon.  For the descending-sorted `S` the library returns, the largest
singular value is the head. -/
def rank_spec (rows cols : ℕ) (S : List ℚ) : ℕ :=
  S.countP (fun s => decide (S.headD 0 * ((max rows cols : ℕ) : ℚ) * machineEps < s))

/-- `condition_number(matrix)` from decomposition.py, lines 183–195,
embedded over the singular values `S`:

    if S[-1] == 0: return float('inf')
    cond = S[0] / S[-1]

`none` stands for the IEEE `float('inf')` return; `some c` for the finite
ratio `S[0] / S[-1]`. -/
def condition_number (S : List ℚ) : Option ℚ :=
  if S.getLastD 0 = 0 then none
  else some (S.headD 0 / S.getLastD 0)

/-- Length of the python slice `S[:rank]` of a length-`k` array, for an
arbitrary integer `rank` (python slicing never raises): a non-negative
`rank` is clamped to `k`, a negative `rank` counts from the end, clamped
at 0. -/
def pySliceLen (rank : ℤ) (k : ℕ) : ℕ :=
  if 0 ≤ rank then min rank.toNat k else k - (-rank).toNat

/-- `S_truncated = np.zeros_like(S); S_truncated[:rank] = S[:rank]` from
decomposition.py, lines 231–232. -/
def truncateS (k : ℕ) (rank : ℤ) (S : Fin k → ℚ) : Fin k → ℚ :=
  fun i => if i.val < pySliceLen rank k then S i else 0

/-- `low_rank_approximation(matrix, rank)` from decomposition.py, lines
225–237, embedded over the economy factors `U, S, Vt =
np.linalg.svd(A, full_matrices=False)` (so `k = min m n` for an `m × n`
input, `U : m × k`, `Vt : k × n`):

    S_truncated = np.zeros_like(S)
    S_truncated[:rank] = S[:rank]
    approximation = U @ np.diag(S_truncated) @ Vt

The function is total in `rank : ℤ`, mirroring that the source performs no
bounds check and python slicing raises no error for any integer `rank`;
the result type records the `m × n` output shape. -/
def low_rank_approximation {m n k : ℕ} (U : Matrix (Fin m) (Fin k) ℚ)
    (S : Fin k → ℚ) (Vt : Matrix (Fin k) (Fin n) ℚ) (rank : ℤ) :
    Matrix (Fin m) (Fin n) ℚ :=
  U * Matrix.diagonal (truncateS k rank S) * Vt

/-- The spec's wording of the truncation: keep the first `rank` singular
values, zero every singular value beyond `rank`, and reconstruct
`U · diag(S_kept) · Vt`. -/
def low_rank_spec {m n k : ℕ} (U : Matrix (Fin m) (Fin k) ℚ)
    (S : Fin k → ℚ) (Vt : Matrix (Fin k) (Fin n) ℚ) (rank : ℕ) :
    Matrix (Fin m) (Fin n) ℚ :=
  U * Matrix.diagonal (fun i => if i.val < rank then S i else 0) * Vt

/-! ### pytorch_sample.py

The torch library operations are collected in a `TorchEnv`: the freshly
initialised `RegressionModel().to(_device)` (deterministic, since
`torch.manual_seed` runs just before inside `_make_synthetic_data`), one
training epoch (`zero_grad`/forward/loss/`backward`/`step`, mutating the
model parameters in place), the MSE loss of a parameter state on the fixed
synthetic data, and the evaluation-mode forward pass on one feature row.
`M` is the model's parameter state; the `train()`/`eval()` mode flag is not
modelled because no layer of `RegressionModel` (`Linear`, `ReLU`) behaves
differently across modes.  The batched forward `model(x)` applies the MLP
row-wise, so a batch prediction is the row map of `rowForward`. -/

structure TorchEnv (M : Type) where
  initModel : M
  trainStep : M → M
  lossOf : M → ℚ
  rowForward : M → List ℚ → ℚ

/-- The errors surfacing from the adapter: the adapter's own
`RuntimeError` for an untrained model (`notTrained`, carrying its message),
the python runtime's `UnboundLocalError`/`NameError` for reading an
unassigned local (`nameError`), and the python runtime's `IndexError` for
`features[0]` on an empty list (`indexError`).  Only `notTrained` is raised
by a `raise` statement of the repository's own code. -/
inductive MLError where
  | notTrained : String → MLError
  | nameError : String → MLError
  | indexError : MLError
deriving DecidableEq

/-- The message of the `RuntimeError` in `_get_or_create_model`
(pytorch_sample.py, lines 44–46): it instructs the caller to call
`train_regression_sample()` first. -/
def trainFirstMsg : String :=
  "モデルがまだ訓練されていません。先に train_regression_sample() を呼んでください。"

/-- The `features` argument of `predict_dict`: either one flat feature
vector `[x1, x2]` or a sequence of feature vectors `[[x1, x2], ...]`
(`Union[List[List[float]], List[float]]`). -/
inductive Features where
  | flat : List ℚ → Features
  | nested : List (List ℚ) → Features
deriving DecidableEq

/-- The module-level slot `_model: nn.Module | None = None`
(pytorch_sample.py, line 15): absent at process start. -/
def initState (M : Type) : Option M := none

/-- `{"final_loss": ..., "epochs": ...}` returned by
`train_regression_sample`. -/
structure TrainResult where
  final_loss : ℚ
  epochs : ℚ
deriving DecidableEq

/-- `train_regression_sample(epochs, ...)` from pytorch_sample.py, lines
84–102, as a transition on the `_model` slot:

    _model = RegressionModel().to(_device)      -- before the loop
    for _ in range(epochs): ... optimizer.step()
    final_loss = loss.item()

The fresh model is stored in the slot before the loop and mutated in place
by each `optimizer.step()`, so the slot afterwards holds the model after
`epochs` steps whatever happens next.  The loss read after the loop is the
one computed in the last iteration — from the parameters after `epochs - 1`
steps; with `epochs = 0` the loop never runs, the local `loss` was never
assigned, and the read raises (`nameError`), after the slot was already
overwritten. -/
def train_regression_sample {M : Type} (env : TorchEnv M) (epochs : ℕ)
    (_s : Option M) : Option M × Except MLError TrainResult :=
  let mT := env.trainStep^[epochs] env.initModel
  if epochs = 0 then
    (some mT, Except.error (MLError.nameError ("loss")))
  else
    (some mT,
      Except.ok ⟨env.lossOf (env.trainStep^[epochs - 1] env.initModel), (epochs : ℚ)⟩)

/-- `predict_dict(features)` from pytorch_sample.py, lines 129–141, as a
read of the `_model` slot:

    model = _get_or_create_model()              -- RuntimeError when absent
    if isinstance(features[0], (int, float)):   -- IndexError on []
        features = [list(features)]
    ... pred = model(x) ... return ... pred.cpu().tolist()

The slot is returned unchanged: the prediction path runs under
`torch.no_grad()` and writes neither the slot nor the parameters.  A flat
vector (its first element is a number) is promoted to a one-sample batch;
a nested input is used as the batch; the returned list maps the model's
row-wise forward over the batch, one prediction per sample in order
(the `pred.dim() == 0` unsqueeze at line 139 only re-shapes the tensor for
`tolist`, it cannot drop or reorder entries of a batched result). -/
def predict_dict {M : Type} (env : TorchEnv M) (s : Option M) (f : Features) :
    Option M × Except MLError (List ℚ) :=
  match s with
  | none => (none, Except.error (MLError.notTrained trainFirstMsg))
  | some m =>
    match f with
    | Features.flat [] => (some m, Except.error MLError.indexError)
    | Features.nested [] => (some m, Except.error MLError.indexError)
    | Features.flat v => (some m, Except.ok (List.map (env.rowForward m) [v]))
    | Features.nested b => (some m, Except.ok (List.map (env.rowForward m) b))

/-- `device_info()` from pytorch_sample.py, lines 154–159, over the
process-start `torch.cuda.is_available()` flag; python's `str(bool)`
renders `True`/`False`. -/
def device_info (cudaAvailable : Bool) : List (String × String) :=
  [(("cuda_available"), if cudaAvailable then ("True") else ("False")),
   (("device_name"), if cudaAvailable then ("cuda") else ("cpu"))]

/-- The public operations touching the `_model` slot. -/
inductive Op where
  | train : ℕ → Op
  | predict : Features → Op
  | deviceInfo : Op

/-- The effect of one public call on the `_model` slot (`device_info` never
touches it). -/
def step {M : Type} (env : TorchEnv M) (s : Option M) : Op → Option M
  | Op.train e => (train_regression_sample env e s).1
  | Op.predict f => (predict_dict env s f).1
  | Op.deviceInfo => s

/-- A concrete torch environment over the trivial model type, for
instantiating the theorems at concrete inputs. -/
def unitEnv : TorchEnv Unit :=
  ⟨(), id, fun _ => 0, fun _ _ => 0⟩

/-! ### Helper lemmas -/

lemma zero_le_listMax (S : List ℚ) : 0 ≤ listMax S := by
  induction S with
  | nil => simp [listMax]
  | cons a t ih =>
    simp only [listMax, List.foldr_cons] at ih ⊢
    exact le_trans ih (le_max_right a _)

lemma listMax_le (S : List ℚ) (a : ℚ) (ha : 0 ≤ a) :
    (∀ x ∈ S, x ≤ a) → listMax S ≤ a := by
  induction S with
  | nil => intro _; simpa [listMax] using ha
  | cons b t ih =>
    intro h
    simp only [listMax, List.foldr_cons] at ih ⊢
    refine max_le (h b (List.mem_cons_self b t)) ?_
    exact ih fun x hx => h x (List.mem_cons_of_mem _ hx)

lemma listMax_eq_headD (S : List ℚ) (hsort : S.Sorted (fun a b => b ≤ a))
    (hnn : ∀ s ∈ S, 0 ≤ s) : listMax S = S.headD 0 := by
  cases S with
  | nil => rfl
  | cons a t =>
    rw [List.sorted_cons] at hsort
    simp only [List.headD_cons, listMax, List.foldr_cons]
    refine max_eq_left ?_
    exact listMax_le t a (hnn a (List.mem_cons_self a t)) hsort.1

lemma sorted_le_headD (S : List ℚ) (hsort : S.Sorted (fun a b => b ≤ a)) :
    ∀ s ∈ S, s ≤ S.headD 0 := by
  cases S with
  | nil => intro s hs; cases hs
  | cons a t =>
    intro s hs
    rw [List.sorted_cons] at hsort
    simp only [List.headD_cons]
    rcases List.mem_cons.mp hs with h | h
    · exact le_of_eq h
    · exact hsort.1 s h

lemma getLastD_mem_cons (t : List ℚ) : ∀ a : ℚ, t.getLastD a ∈ a :: t := by
  induction t with
  | nil => intro a; simp
  | cons b u ih =>
    intro a
    rw [List.getLastD_cons]
    rcases List.mem_cons.mp (ih b) with h | h
    · rw [h]; exact List.mem_cons_of_mem a (List.mem_cons_self b u)
    · exact List.mem_cons_of_mem a (List.mem_cons_of_mem b h)

lemma sorted_getLastD_le (S : List ℚ) (hsort : S.Sorted (fun a b => b ≤ a)) :
    ∀ s ∈ S, S.getLastD 0 ≤ s := by
  induction S with
  | nil => intro s hs; cases hs
  | cons a t ih =>
    intro s hs
    rw [List.sorted_cons] at hsort
    rw [List.getLastD_cons]
    rcases List.mem_cons.mp hs with h | h
    · subst h
      rcases List.mem_cons.mp (getLastD_mem_cons t s) with h2 | h2
      · exact le_of_eq h2
      · exact hsort.1 _ h2
    · cases t with
      | nil => cases h
      | cons b u =>
        have := ih hsort.2 s h
        rw [List.getLastD_cons] at this ⊢
        exact this

lemma predict_dict_fst {M : Type} (env : TorchEnv M) (s : Option M)
    (f : Features) : (predict_dict env s f).1 = s := by
  cases s with
  | none => rfl
  | some m =>
    cases f with
    | flat v => cases v <;> rfl
    | nested b => cases b <;> rfl

/-! ### Claim theorems -/

/-- C3: `matrix_rank` without a tolerance argument counts the singular
values strictly exceeding largest-singular-value × max(rows, cols) ×
machine epsilon, and returns 0 whenever every singular value is zero (as
for an all-zero matrix, whose singular values are all zero). -/
theorem matrix_rank_default_tolerance (rows cols : ℕ) (S : List ℚ)
    (hsort : S.Sorted (fun a b => b ≤ a)) (hnn : ∀ s ∈ S, 0 ≤ s) :
    matrix_rank rows cols S none = rank_spec rows cols S
    ∧ ((∀ s ∈ S, s = 0) → matrix_rank rows cols S none = 0) := by
  constructor
  · simp only [matrix_rank, rank_spec, Option.getD_none]
    rw [listMax_eq_headD S hsort hnn]
  · intro hz
    simp only [matrix_rank, Option.getD_none]
    rw [List.countP_eq_zero]
    intro s hs
    rw [hz s hs]
    simp only [decide_eq_true_eq]
    refine not_lt.mpr ?_
    refine mul_nonneg (mul_nonneg (zero_le_listMax S) ?_) ?_
    · exact Nat.cast_nonneg _
    · norm_num [machineEps]

/-- Witness for C3 at the singular values of the 2 × 2 all-zero matrix. -/
theorem matrix_rank_default_tolerance_witness :
    (([0, 0] : List ℚ).Sorted (fun a b => b ≤ a)
      ∧ ∀ s ∈ ([0, 0] : List ℚ), 0 ≤ s)
    ∧ (matrix_rank 2 2 [0, 0] none = rank_spec 2 2 [0, 0]
      ∧ ((∀ s ∈ ([0, 0] : List ℚ), s = 0) → matrix_rank 2 2 [0, 0] none = 0)) :=
  ⟨⟨by decide, by decide⟩,
    matrix_rank_default_tolerance 2 2 [0, 0] (by decide) (by decide)⟩

/-- C4: `condition_number` returns infinity (`none`) exactly when the
smallest singular value is exactly zero, otherwise the ratio of the largest
to the smallest singular value, and the returned ratio is never negative.
For the descending-sorted non-negative `S` the library returns, `S[0]` is
the largest and `S[-1]` the smallest singular value. -/
theorem condition_number_spec (S : List ℚ) (hne : S ≠ [])
    (hsort : S.Sorted (fun a b => b ≤ a)) (hnn : ∀ s ∈ S, 0 ≤ s) :
    (condition_number S = none ↔ S.getLastD 0 = 0)
    ∧ (∀ s ∈ S, S.getLastD 0 ≤ s ∧ s ≤ S.headD 0)
    ∧ (∀ c, condition_number S = some c →
        c = S.headD 0 / S.getLastD 0 ∧ 0 ≤ c) := by
  refine ⟨?_, ?_, ?_⟩
  · unfold condition_number
    by_cases h : S.getLastD 0 = 0 <;> simp [h]
  · intro s hs
    exact ⟨sorted_getLastD_le S hsort s hs, sorted_le_headD S hsort s hs⟩
  · intro c hc
    unfold condition_number at hc
    by_cases h : S.getLastD 0 = 0
    · rw [if_pos h] at hc
      exact Option.noConfusion hc
    · rw [if_neg h, Option.some_inj] at hc
      refine ⟨hc.symm, ?_⟩
      rw [← hc]
      refine div_nonneg ?_ ?_
      · cases S with
        | nil => exact absurd rfl hne
        | cons a t => simpa using hnn a (List.mem_cons_self a t)
      · cases S with
        | nil => exact absurd rfl hne
        | cons a t =>
          rw [List.getLastD_cons]
          exact hnn _ (getLastD_mem_cons t a)

/-- Witness for C4 at the singular values `[2, 1]`. -/
theorem condition_number_spec_witness :
    (([2, 1] : List ℚ) ≠ [] ∧ ([2, 1] : List ℚ).Sorted (fun a b => b ≤ a)
      ∧ ∀ s ∈ ([2, 1] : List ℚ), 0 ≤ s)
    ∧ ((condition_number [2, 1] = none ↔ ([2, 1] : List ℚ).getLastD 0 = 0)
      ∧ (∀ s ∈ ([2, 1] : List ℚ),
          ([2, 1] : List ℚ).getLastD 0 ≤ s ∧ s ≤ ([2, 1] : List ℚ).headD 0)
      ∧ (∀ c, condition_number [2, 1] = some c →
          c = ([2, 1] : List ℚ).headD 0 / ([2, 1] : List ℚ).getLastD 0 ∧ 0 ≤ c)) :=
  ⟨⟨by decide, by decide, by decide⟩,
    condition_number_spec [2, 1] (by decide) (by decide) (by decide)⟩

/-- C5: for `1 ≤ rank ≤ min(m, n)`, `low_rank_approximation` equals the
economy-SVD reconstruction `U · diag(S_kept) · Vt` keeping the first `rank`
singular values and zeroing the rest; the `m × n` output shape is recorded
by the result type `Matrix (Fin m) (Fin n) ℚ`. -/
theorem low_rank_approximation_spec {m n : ℕ}
    (U : Matrix (Fin m) (Fin (min m n)) ℚ) (S : Fin (min m n) → ℚ)
    (Vt : Matrix (Fin (min m n)) (Fin n) ℚ) (rank : ℕ)
    (h1 : 1 ≤ rank) (h2 : rank ≤ min m n) :
    low_rank_approximation U S Vt (rank : ℤ) = low_rank_spec U S Vt rank := by
  have hlen : pySliceLen (rank : ℤ) (min m n) = rank := by
    unfold pySliceLen
    rw [if_pos (Int.natCast_nonneg rank), Int.toNat_natCast]
    exact min_eq_left h2
  unfold low_rank_approximation low_rank_spec truncateS
  rw [hlen]

/-- Witness for C5 at the 1 × 1 factors `U = Vt = [[1]]`, `S = [3]`,
`rank = 1`. -/
theorem low_rank_approximation_spec_witness :
    ((1 : ℕ) ≤ 1 ∧ (1 : ℕ) ≤ min 1 1)
    ∧ low_rank_approximation
        ((Matrix.of fun _ _ => (1 : ℚ)) : Matrix (Fin 1) (Fin (min 1 1)) ℚ)
        (fun _ => 3)
        ((Matrix.of fun _ _ => (1 : ℚ)) : Matrix (Fin (min 1 1)) (Fin 1) ℚ)
        ((1 : ℕ) : ℤ)
      = low_rank_spec
        ((Matrix.of fun _ _ => (1 : ℚ)) : Matrix (Fin 1) (Fin (min 1 1)) ℚ)
        (fun _ => 3)
        ((Matrix.of fun _ _ => (1 : ℚ)) : Matrix (Fin (min 1 1)) (Fin 1) ℚ) 1 :=
  ⟨⟨le_refl 1, by decide⟩,
    low_rank_approximation_spec _ _ _ 1 (le_refl 1) (by decide)⟩

/-- C9: `low_rank_approximation` is total in the `rank` argument (no bounds
check, mirroring that python slicing raises no error for any integer): for
every integer `rank ≥ min(m, n)` it keeps every singular value — equalling
the full economy reconstruction and the result at `rank = min(m, n)` — and
at `rank = 0` it returns the all-zero `m × n` matrix. -/
theorem low_rank_approximation_no_bounds_check {m n : ℕ}
    (U : Matrix (Fin m) (Fin (min m n)) ℚ) (S : Fin (min m n) → ℚ)
    (Vt : Matrix (Fin (min m n)) (Fin n) ℚ) :
    (∀ rank : ℤ, ((min m n : ℕ) : ℤ) ≤ rank →
        low_rank_approximation U S Vt rank = U * Matrix.diagonal S * Vt
        ∧ low_rank_approximation U S Vt rank
            = low_rank_approximation U S Vt ((min m n : ℕ) : ℤ))
    ∧ low_rank_approximation U S Vt 0 = 0 := by
  have key : ∀ rank : ℤ, ((min m n : ℕ) : ℤ) ≤ rank →
      low_rank_approximation U S Vt rank = U * Matrix.diagonal S * Vt := by
    intro rank hr
    have h0 : (0 : ℤ) ≤ rank := le_trans (Int.natCast_nonneg _) hr
    have hlen : pySliceLen rank (min m n) = min m n := by
      unfold pySliceLen
      rw [if_pos h0]
      refine min_eq_right ?_
      omega
    unfold low_rank_approximation truncateS
    rw [hlen]
    have hS : (fun i : Fin (min m n) => if i.val < min m n then S i else 0) = S :=
      funext fun i => if_pos i.isLt
    rw [hS]
  refine ⟨fun rank hr => ⟨key rank hr, ?_⟩, ?_⟩
  · rw [key rank hr, key ((min m n : ℕ) : ℤ) (le_refl _)]
  · have hlen : pySliceLen 0 (min m n) = 0 := by
      unfold pySliceLen
      rw [if_pos (le_refl 0)]
      simp
    unfold low_rank_approximation truncateS
    rw [hlen]
    have hS : (fun i : Fin (min m n) => if i.val < 0 then S i else 0)
        = fun _ => (0 : ℚ) :=
      funext fun i => if_neg (Nat.not_lt_zero _)
    rw [hS]
    rw [show Matrix.diagonal (fun _ : Fin (min m n) => (0 : ℚ)) = 0 from
      Matrix.diagonal_zero]
    rw [Matrix.mul_zero, Matrix.zero_mul]

/-- C1: with the model slot absent, `predict_dict` fails for every input
with the dedicated `RuntimeError` carrying the train-first message
(`trainFirstMsg`, the literal message of `_get_or_create_model`), produces
no prediction, and leaves the slot absent.  The state error arises only in
that state: neither `predict_dict` on a present model nor
`train_regression_sample` ever yields it — matching that the `raise` in
`_get_or_create_model` is the only `raise` statement of the adapters' own
code, every other failure (`indexError`, `nameError`) being propagated
from the python/torch runtime. -/
theorem predict_untrained_state_error {M : Type} (env : TorchEnv M) :
    (∀ f, predict_dict env (initState M) f
        = (none, Except.error (MLError.notTrained trainFirstMsg)))
    ∧ (∀ m f msg,
        (predict_dict env (some m) f).2 ≠ Except.error (MLError.notTrained msg))
    ∧ (∀ e s msg,
        (train_regression_sample env e s).2
          ≠ Except.error (MLError.notTrained msg)) := by
  refine ⟨fun f => rfl, ?_, ?_⟩
  · intro m f msg
    cases f with
    | flat v => cases v <;> simp [predict_dict]
    | nested b => cases b <;> simp [predict_dict]
  · intro e s msg
    by_cases he : e = 0 <;> simp [train_regression_sample, he]

/-- C2: the model-slot state machine — the slot starts absent
(`initState`), every `train_regression_sample` call (successful or not)
overwrites it with the freshly initialised model after its optimizer
steps, and no operation takes a present slot back to absent. -/
theorem model_handle_state_machine {M : Type} (env : TorchEnv M) :
    initState M = none
    ∧ (∀ e s, (train_regression_sample env e s).1
        = some (env.trainStep^[e] env.initModel))
    ∧ (∀ s op, s.isSome = true → (step env s op).isSome = true) := by
  refine ⟨rfl, ?_, ?_⟩
  · intro e s
    by_cases he : e = 0 <;> simp [train_regression_sample, he]
  · intro s op h
    cases op with
    | train e =>
      show (train_regression_sample env e s).1.isSome = true
      by_cases he : e = 0 <;> simp [train_regression_sample, he]
    | predict f =>
      show (predict_dict env s f).1.isSome = true
      rw [predict_dict_fst]
      exact h
    | deviceInfo => exact h

/-- C6: in the `Trained` state a flat feature vector `[x1, x2]` is promoted
to the single-sample batch `[[x1, x2]]` — `predict_dict` gives the same
answer on both — and on a batch the returned result is the row-wise forward
mapped over the batch: exactly one prediction per input sample, in input
order. -/
theorem predict_flat_promotion {M : Type} (env : TorchEnv M) (m : M)
    (x1 x2 : ℚ) (b : List (List ℚ)) (hb : b ≠ []) :
    predict_dict env (some m) (Features.flat [x1, x2])
      = predict_dict env (some m) (Features.nested [[x1, x2]])
    ∧ (predict_dict env (some m) (Features.nested b)).2
      = Except.ok (b.map (env.rowForward m)) := by
  constructor
  · rfl
  · cases b with
    | nil => exact absurd rfl hb
    | cons r t => rfl

/-- Witness for C6 at the trivial model and the batch `[[1, 2]]`. -/
theorem predict_flat_promotion_witness :
    (([[1, 2]] : List (List ℚ)) ≠ [])
    ∧ (predict_dict unitEnv (some ()) (Features.flat [1, 2])
        = predict_dict unitEnv (some ()) (Features.nested [[1, 2]])
      ∧ (predict_dict unitEnv (some ()) (Features.nested [[1, 2]])).2
        = Except.ok (([[1, 2]] : List (List ℚ)).map (unitEnv.rowForward ()))) :=
  ⟨by decide, predict_flat_promotion unitEnv () 1 2 [[1, 2]] (by decide)⟩

/-- C7: prediction is deterministic and side-effect-free on the model — in
the `Trained` state `predict_dict` returns the slot (and the parameter
state it holds) unchanged, and calling it again on the post-call state with
equal input yields an equal result. -/
theorem predict_deterministic_no_mutation {M : Type} (env : TorchEnv M)
    (m : M) (f : Features) :
    (predict_dict env (some m) f).1 = some m
    ∧ (predict_dict env ((predict_dict env (some m) f).1) f).2
      = (predict_dict env (some m) f).2 := by
  have h := predict_dict_fst env (some m) f
  exact ⟨h, by rw [h]⟩

/-- C8: `train_regression_sample` with `epochs = 0` fails (the local `loss`
is read after a loop that never ran), yet the model slot was already
overwritten with the freshly initialised model before the loop — from any
prior state, including the absent one: the failed call still lands in the
`Trained` state, so training failure is not atomic in the slot. -/
theorem train_zero_epochs_not_atomic {M : Type} (env : TorchEnv M)
    (s : Option M) :
    train_regression_sample env 0 s
      = (some env.initModel, Except.error (MLError.nameError ("loss"))) := rfl

/-- C10: in the `Trained` state, `predict_dict` on an empty features list
(in either of its two input shapes) fails with the `IndexError` from
`features[0]`, before any tensor is built or the model applied — the error
branch never consults the model's forward pass. -/
theorem predict_empty_features_index_error {M : Type} (env : TorchEnv M)
    (m : M) :
    predict_dict env (some m) (Features.flat [])
      = (some m, Except.error MLError.indexError)
    ∧ predict_dict env (some m) (Features.nested [])
      = (some m, Except.error MLError.indexError) :=
  ⟨rfl, rfl⟩

end Pylib
